import Mathlib

/-!
Verification of the Sync & Index Lifecycle Orchestrator of the
document-embeddings system.

The development shallowly embeds:
* the `update_sync_progress` trigger of `database/database-schema.sql`
  (document status rows, counter recomputation, the NUMERIC(5,2) progress
  column);
* the migration runner `runMigrations` (transactional batch application of
  migration files);
* the `JobCoordinator` class (bounded-concurrency admission via
  `Promise.race`, worker promise settlement);
* operations described only in the specification where their code is not
  among the source files (per-document transition rules, the sync-job
  registry, the alias-promotion protocol); these are marked
  "Modelled from the spec".
-/

namespace DocEmbed

/-- Document pipeline status, the `document_status` enum of
`database-schema.sql`. -/
inductive DocStatus
  | pending
  | downloading
  | downloaded
  | sanitizing
  | sanitized
  | embedding
  | embedded
  | failed
  | skipped
  deriving DecidableEq, Repr, Fintype

/-- One `document_statuses` row of a single sync job, restricted to the
columns the progress trigger reads: `(document_id, status)`. -/
abbrev DocRow := Nat × DocStatus

/-- The trigger's processed filter: `status NOT IN ('pending', 'downloading')`. -/
def isProcessed (s : DocStatus) : Bool :=
  !(s == .pending || s == .downloading)

/-- Row count for the job, the trigger's `COUNT(*) AS total`. -/
def countTotal (rows : List DocRow) : Nat := rows.length

/-- SQL `COUNT(*) FILTER (WHERE q status)` over a job's rows. -/
def countStatus (q : DocStatus → Bool) : List DocRow → Nat
  | [] => 0
  | r :: rest => (if q r.2 then 1 else 0) + countStatus q rest

/-- The trigger's `COUNT(*) FILTER (WHERE status NOT IN ('pending', 'downloading'))`. -/
def countProcessed (rows : List DocRow) : Nat :=
  countStatus isProcessed rows

/-- The trigger's `COUNT(*) FILTER (WHERE status = 'embedded')`. -/
def countSuccess (rows : List DocRow) : Nat :=
  countStatus (fun s => s == DocStatus.embedded) rows

/-- The trigger's `COUNT(*) FILTER (WHERE status = 'failed')`. -/
def countFailed (rows : List DocRow) : Nat :=
  countStatus (fun s => s == DocStatus.failed) rows

/-- Stored progress in hundredths of a percent.  The trigger computes
`(counts.processed::NUMERIC / counts.total::NUMERIC) * 100` and assigns it to
the `progress NUMERIC(5, 2)` column of `sync_jobs`; PostgreSQL rounds the
assigned value half away from zero to two fractional digits, which for the
nonnegative operands here equals `floor(processed * 10000 / total + 1/2)`
hundredths, i.e. `(2 * processed * 10000 + total) / (2 * total)` in natural
division.  The trigger's `CASE WHEN counts.total > 0 ... ELSE 0` yields 0 for
an empty job. -/
def progressCenti (rows : List DocRow) : Nat :=
  if 0 < countTotal rows then
    (2 * countProcessed rows * 10000 + countTotal rows) / (2 * countTotal rows)
  else 0

/-- The stored `progress` value as an exact rational. -/
def ratProgress (rows : List DocRow) : ℚ :=
  (progressCenti rows : ℚ) / 100

/-- The `sync_jobs` columns affected by the progress trigger, together with
the job's `document_statuses` rows. -/
structure JobState where
  rows : List DocRow
  documents_total : Nat
  documents_processed : Nat
  documents_success : Nat
  documents_failed : Nat
  progress : ℚ
  deriving DecidableEq, Repr

/-- Effect of the trigger's `WITH counts AS (...) UPDATE sync_jobs SET ...`:
all counters and the progress become pure functions of the job's rows. -/
def recompute (rows : List DocRow) : JobState :=
  { rows := rows
    documents_total := countTotal rows
    documents_processed := countProcessed rows
    documents_success := countSuccess rows
    documents_failed := countFailed rows
    progress := ratProgress rows }

/-- A write against `document_statuses` for one job: an INSERT or an UPDATE
identified by `document_id`. -/
inductive DocWrite
  | ins (d : Nat) (st : DocStatus)
  | upd (d : Nat) (st : DocStatus)
  deriving DecidableEq, Repr

/-- SQL `UPDATE document_statuses SET status = st WHERE document_id = d`
restricted to one job's rows. -/
def setStatus (d : Nat) (st : DocStatus) : List DocRow → List DocRow
  | [] => []
  | (k, s) :: rest =>
      (if k = d then (k, st) else (k, s)) :: setStatus d st rest

/-- One write to `document_statuses` followed by the AFTER INSERT OR UPDATE
trigger `update_sync_progress_trigger`.  An INSERT of a duplicate
`(sync_id, document_id)` violates the UNIQUE constraint and performs nothing
(`none`); an UPDATE matching no row fires no trigger and leaves the job
unchanged. -/
def applyWrite (s : JobState) : DocWrite → Option JobState
  | .ins d st =>
      if s.rows.any (fun r => r.1 == d) then none
      else some (recompute (s.rows ++ [(d, st)]))
  | .upd d st =>
      if s.rows.any (fun r => r.1 == d) then
        some (recompute (setStatus d st s.rows))
      else some s

/-- A sequence of writes, stopping at the first constraint violation. -/
def applyWrites (s : JobState) : List DocWrite → Option JobState
  | [] => some s
  | w :: ws =>
      match applyWrite s w with
      | none => none
      | some s' => applyWrites s' ws

/-- The write touched at least one row (an UPDATE whose `document_id` is
absent affects zero rows, so the trigger never fires for it). -/
def affects (s : JobState) : DocWrite → Prop
  | .ins _ _ => True
  | .upd d _ => s.rows.any (fun r => r.1 == d) = true

/-- The job's stored counters agree with the pure counts over its rows. -/
def consistent (s : JobState) : Prop :=
  s.documents_total = countTotal s.rows ∧
  s.documents_processed = countProcessed s.rows ∧
  s.documents_success = countSuccess s.rows ∧
  s.documents_failed = countFailed s.rows

instance (s : JobState) (w : DocWrite) : Decidable (affects s w) := by
  cases w with
  | ins d st => exact isTrue trivial
  | upd d st => exact inferInstanceAs (Decidable (_ = true))

instance (s : JobState) : Decidable (consistent s) := by
  unfold consistent; infer_instance

/-- Document terminal statuses: `embedded`, `failed`, `skipped`. -/
def isTerminalDoc (s : DocStatus) : Bool :=
  s == .embedded || s == .failed || s == .skipped

/-- Modelled from the spec: the per-document state machine that
`recordTransition` (spec section 4.2) enforces; the code of
`recordTransition` is not among the source files, only the trigger and the
schema are.  Forward edges
`pending → downloading → downloaded → sanitizing → sanitized → embedding →
embedded`, with `failed` reachable from any non-terminal status and
`skipped` only from `pending`. -/
def allowedTransition : DocStatus → DocStatus → Bool
  | .pending, .downloading => true
  | .downloading, .downloaded => true
  | .downloaded, .sanitizing => true
  | .sanitizing, .sanitized => true
  | .sanitized, .embedding => true
  | .embedding, .embedded => true
  | .pending, .skipped => true
  | s, .failed => !(isTerminalDoc s)
  | _, _ => false

theorem length_setStatus (d : Nat) (st : DocStatus) (l : List DocRow) :
    (setStatus d st l).length = l.length := by
  induction l with
  | nil => rfl
  | cons a t ih =>
      obtain ⟨k, s⟩ := a
      simp [setStatus, ih]

theorem countStatus_setStatus_le (q : DocStatus → Bool) (d : Nat) (st : DocStatus)
    (l : List DocRow)
    (h : ∀ old, (d, old) ∈ l → q old = true → q st = true) :
    countStatus q l ≤ countStatus q (setStatus d st l) := by
  induction l with
  | nil => exact Nat.le_refl _
  | cons a t ih =>
      obtain ⟨k, s⟩ := a
      have ht : countStatus q t ≤ countStatus q (setStatus d st t) :=
        ih (fun old hm himp => h old (List.mem_cons_of_mem _ hm) himp)
      by_cases hk : k = d
      · subst hk
        have hrw : setStatus k st ((k, s) :: t) = (k, st) :: setStatus k st t := by
          simp [setStatus]
        rw [hrw]
        show (if q s = true then 1 else 0) + countStatus q t
            ≤ (if q st = true then 1 else 0) + countStatus q (setStatus k st t)
        by_cases hq : q s = true
        · have hst : q st = true := h s (List.mem_cons_self _ _) hq
          rw [if_pos hq, if_pos hst]
          omega
        · rw [if_neg hq]
          omega
      · have hrw : setStatus d st ((k, s) :: t) = (k, s) :: setStatus d st t := by
          simp [setStatus, hk]
        rw [hrw]
        show (if q s = true then 1 else 0) + countStatus q t
            ≤ (if q s = true then 1 else 0) + countStatus q (setStatus d st t)
        omega

theorem allowedTransition_mono :
    ∀ old st : DocStatus, allowedTransition old st = true →
      (isProcessed old = true → isProcessed st = true) ∧
      ((old == DocStatus.embedded) = true → (st == DocStatus.embedded) = true) ∧
      ((old == DocStatus.failed) = true → (st == DocStatus.failed) = true) := by
  decide

theorem countStatus_le_length (q : DocStatus → Bool) (l : List DocRow) :
    countStatus q l ≤ l.length := by
  induction l with
  | nil => exact Nat.le_refl _
  | cons a t ih =>
      show (if q a.2 = true then 1 else 0) + countStatus q t ≤ t.length + 1
      split <;> omega

theorem countStatus_append (q : DocStatus → Bool) (l₁ l₂ : List DocRow) :
    countStatus q (l₁ ++ l₂) = countStatus q l₁ + countStatus q l₂ := by
  induction l₁ with
  | nil => simp [countStatus]
  | cons a t ih =>
      show (if q a.2 = true then 1 else 0) + countStatus q (t ++ l₂) = _
      rw [ih]
      show _ = (if q a.2 = true then 1 else 0) + countStatus q t + countStatus q l₂
      omega

theorem progressCenti_le (rows : List DocRow) : progressCenti rows ≤ 10000 := by
  unfold progressCenti
  split
  · rename_i h
    have hp : countProcessed rows ≤ countTotal rows := countStatus_le_length _ _
    rw [Nat.div_le_iff_le_mul_add_pred (by omega)]
    omega
  · omega

theorem ratProgress_mem (rows : List DocRow) :
    0 ≤ ratProgress rows ∧ ratProgress rows ≤ 100 := by
  unfold ratProgress
  refine ⟨by positivity, ?_⟩
  have h : (progressCenti rows : ℚ) ≤ 10000 := by
    exact_mod_cast progressCenti_le rows
  rw [div_le_iff₀ (by norm_num : (0:ℚ) < 100)]
  linarith

/-- C1 (amended): after every `document_statuses` INSERT or UPDATE affecting
a row of a job, the `update_sync_progress` trigger leaves the job's stored
counters equal to the stated pure function of the job's rows — `total` = row
count, `processed` = count with status outside pending/downloading,
`success` = count embedded, `failed` = count failed — and the stored progress
equal to `processed / total * 100` rounded half away from zero to two decimal
places (the NUMERIC(5, 2) column), 0 when `total = 0`. -/
theorem update_sync_progress_recomputes (s s' : JobState) (w : DocWrite)
    (hw : applyWrite s w = some s') (ha : affects s w) :
    s'.documents_total = countTotal s'.rows ∧
    s'.documents_processed = countProcessed s'.rows ∧
    s'.documents_success = countSuccess s'.rows ∧
    s'.documents_failed = countFailed s'.rows ∧
    s'.progress = ratProgress s'.rows := by
  cases w with
  | ins d st =>
      simp only [applyWrite] at hw
      split at hw
      · exact Option.noConfusion hw
      · obtain rfl : recompute (s.rows ++ [(d, st)]) = s' := Option.some.inj hw
        exact ⟨rfl, rfl, rfl, rfl, rfl⟩
  | upd d st =>
      simp only [applyWrite] at hw
      split at hw
      · obtain rfl : recompute (setStatus d st s.rows) = s' := Option.some.inj hw
        exact ⟨rfl, rfl, rfl, rfl, rfl⟩
      · rename_i hc
        simp only [affects] at ha
        exact absurd ha hc

theorem update_sync_progress_recomputes_witness :
    (recompute [(0, DocStatus.pending)]).documents_total
        = countTotal (recompute [(0, DocStatus.pending)]).rows ∧
    (recompute [(0, DocStatus.pending)]).documents_processed
        = countProcessed (recompute [(0, DocStatus.pending)]).rows ∧
    (recompute [(0, DocStatus.pending)]).documents_success
        = countSuccess (recompute [(0, DocStatus.pending)]).rows ∧
    (recompute [(0, DocStatus.pending)]).documents_failed
        = countFailed (recompute [(0, DocStatus.pending)]).rows ∧
    (recompute [(0, DocStatus.pending)]).progress
        = ratProgress (recompute [(0, DocStatus.pending)]).rows :=
  update_sync_progress_recomputes (recompute []) (recompute [(0, DocStatus.pending)])
    (.ins 0 .pending) rfl trivial

/-- A job whose rows are one embedded and one pending document. -/
def c1state : JobState := recompute [(0, .embedded), (1, .pending)]

/-- The job after inserting a third, pending document. -/
def c1after : JobState := recompute [(0, .embedded), (1, .pending), (2, .pending)]

/-- C1 counterexample: with three rows of which one is processed, the trigger
stores progress 33.33 — the NUMERIC(5, 2) rounding of 100/3 — which differs
from the claim's exact `processed / total * 100 = 100/3`. -/
theorem sync_progress_rounding_counterexample :
    applyWrite c1state (.ins 2 .pending) = some c1after ∧
    c1after.documents_processed = 1 ∧ c1after.documents_total = 3 ∧
    c1after.progress = 3333 / 100 ∧
    ¬ c1after.progress =
        (c1after.documents_processed : ℚ) / (c1after.documents_total : ℚ) * 100 := by
  have h : progressCenti [(0, DocStatus.embedded), (1, .pending), (2, .pending)] = 3333 := by
    decide
  refine ⟨rfl, by decide, by decide, ?_, ?_⟩
  · show ratProgress _ = _
    unfold ratProgress
    rw [h]
    norm_num
  · have hp : c1after.documents_processed = 1 := by decide
    have htot : c1after.documents_total = 3 := by decide
    rw [hp, htot]
    show ¬ ratProgress _ = _
    unfold ratProgress
    rw [h]
    norm_num

/-- The update is either an insert or follows an allowed per-document
state-machine transition from the row's current status. -/
def monotoneOk (s : JobState) : DocWrite → Prop
  | .ins _ _ => True
  | .upd d st => ∀ old, (d, old) ∈ s.rows → allowedTransition old st = true

instance (s : JobState) (w : DocWrite) : Decidable (monotoneOk s w) := by
  cases w with
  | ins d st => exact isTrue trivial
  | upd d st =>
      exact inferInstanceAs
        (Decidable (∀ old, (d, old) ∈ s.rows → allowedTransition old st = true))

/-- C6 (amended): for a job whose stored counters agree with its rows, a
DocumentStatus insert, or an update that follows an allowed per-document
state-machine transition, never decreases `total`, `processed`, `success` or
`failed`; an arbitrary SQL update (e.g. `embedded` to `pending`) can decrease
them. -/
theorem counters_monotone (s s' : JobState) (w : DocWrite)
    (hc : consistent s) (hok : monotoneOk s w) (hw : applyWrite s w = some s') :
    s.documents_total ≤ s'.documents_total ∧
    s.documents_processed ≤ s'.documents_processed ∧
    s.documents_success ≤ s'.documents_success ∧
    s.documents_failed ≤ s'.documents_failed := by
  obtain ⟨h1, h2, h3, h4⟩ := hc
  cases w with
  | ins d st =>
      simp only [applyWrite] at hw
      split at hw
      · exact Option.noConfusion hw
      · obtain rfl : recompute (s.rows ++ [(d, st)]) = s' := Option.some.inj hw
        refine ⟨?_, ?_, ?_, ?_⟩
        · rw [h1]
          show countTotal s.rows ≤ countTotal (s.rows ++ [(d, st)])
          unfold countTotal
          simp
        · rw [h2]
          show countProcessed s.rows ≤ countProcessed (s.rows ++ [(d, st)])
          unfold countProcessed
          rw [countStatus_append]
          omega
        · rw [h3]
          show countSuccess s.rows ≤ countSuccess (s.rows ++ [(d, st)])
          unfold countSuccess
          rw [countStatus_append]
          omega
        · rw [h4]
          show countFailed s.rows ≤ countFailed (s.rows ++ [(d, st)])
          unfold countFailed
          rw [countStatus_append]
          omega
  | upd d st =>
      simp only [applyWrite] at hw
      simp only [monotoneOk] at hok
      split at hw
      · obtain rfl : recompute (setStatus d st s.rows) = s' := Option.some.inj hw
        have hmono := fun old hm => allowedTransition_mono old st (hok old hm)
        refine ⟨?_, ?_, ?_, ?_⟩
        · rw [h1]
          show countTotal s.rows ≤ countTotal (setStatus d st s.rows)
          unfold countTotal
          rw [length_setStatus]
        · rw [h2]
          show countProcessed s.rows ≤ countProcessed (setStatus d st s.rows)
          unfold countProcessed
          exact countStatus_setStatus_le _ d st s.rows (fun old hm => (hmono old hm).1)
        · rw [h3]
          show countSuccess s.rows ≤ countSuccess (setStatus d st s.rows)
          unfold countSuccess
          exact countStatus_setStatus_le _ d st s.rows (fun old hm => (hmono old hm).2.1)
        · rw [h4]
          show countFailed s.rows ≤ countFailed (setStatus d st s.rows)
          unfold countFailed
          exact countStatus_setStatus_le _ d st s.rows (fun old hm => (hmono old hm).2.2)
      · obtain rfl : s = s' := Option.some.inj hw
        exact ⟨Nat.le_refl _, Nat.le_refl _, Nat.le_refl _, Nat.le_refl _⟩

theorem counters_monotone_witness :
    (recompute [(0, DocStatus.embedding)]).documents_total
        ≤ (recompute [(0, DocStatus.embedded)]).documents_total ∧
    (recompute [(0, DocStatus.embedding)]).documents_processed
        ≤ (recompute [(0, DocStatus.embedded)]).documents_processed ∧
    (recompute [(0, DocStatus.embedding)]).documents_success
        ≤ (recompute [(0, DocStatus.embedded)]).documents_success ∧
    (recompute [(0, DocStatus.embedding)]).documents_failed
        ≤ (recompute [(0, DocStatus.embedded)]).documents_failed :=
  counters_monotone (recompute [(0, DocStatus.embedding)])
    (recompute [(0, DocStatus.embedded)]) (.upd 0 .embedded)
    ⟨rfl, rfl, rfl, rfl⟩ (by decide) rfl

/-- C6 counterexample: an UPDATE from `embedded` to `pending` — accepted by
the database, which enforces no per-document transition rule — decreases both
the `documents_success` and `documents_processed` counters. -/
theorem counters_decrease_counterexample :
    applyWrite (recompute [(0, DocStatus.embedded)]) (.upd 0 .pending)
      = some (recompute [(0, DocStatus.pending)]) ∧
    (recompute [(0, DocStatus.pending)]).documents_success
      < (recompute [(0, DocStatus.embedded)]).documents_success ∧
    (recompute [(0, DocStatus.pending)]).documents_processed
      < (recompute [(0, DocStatus.embedded)]).documents_processed :=
  ⟨rfl, by decide, by decide⟩

/-- C10: after any DocumentStatus insert or update affecting a row of a job,
the recomputed progress value lies in the closed interval [0, 100]. -/
theorem progress_in_range (s s' : JobState) (w : DocWrite)
    (hw : applyWrite s w = some s') (ha : affects s w) :
    0 ≤ s'.progress ∧ s'.progress ≤ 100 := by
  cases w with
  | ins d st =>
      simp only [applyWrite] at hw
      split at hw
      · exact Option.noConfusion hw
      · obtain rfl : recompute (s.rows ++ [(d, st)]) = s' := Option.some.inj hw
        exact ratProgress_mem _
  | upd d st =>
      simp only [applyWrite] at hw
      split at hw
      · obtain rfl : recompute (setStatus d st s.rows) = s' := Option.some.inj hw
        exact ratProgress_mem _
      · rename_i hc
        simp only [affects] at ha
        exact absurd ha hc

theorem progress_in_range_witness :
    0 ≤ (recompute [(0, DocStatus.embedded), (1, DocStatus.pending)]).progress ∧
    (recompute [(0, DocStatus.embedded), (1, DocStatus.pending)]).progress ≤ 100 :=
  progress_in_range (recompute [(0, DocStatus.embedded)])
    (recompute [(0, DocStatus.embedded), (1, DocStatus.pending)])
    (.ins 1 .pending) rfl trivial

/-- One file of the `migrations` directory as seen by `runMigrations`: its
name, whether its SQL is wrapped in its own `BEGIN; ...; COMMIT;` (as the
repository's `001_initial.sql` is — executed through `client.query(sql)`
inside the runner's open transaction, the embedded `COMMIT` commits that
outer transaction, PostgreSQL treating the redundant inner `BEGIN` as a
warning no-op), and whether executing its SQL raises an error. -/
structure MigrationFile where
  name : String
  wrapsInTxn : Bool
  failsToApply : Bool
  deriving DecidableEq, Repr

/-- The persistent database state the migration runner touches: the rows of
the `migrations` bookkeeping table (their `name` column, in insertion order)
and the cumulative effect of executed migration SQL (the names of the
migration files whose schema payload has run, in execution order). -/
structure Db where
  applied : List String
  schema : List String
  deriving DecidableEq, Repr

def mkDb (app sch : List String) : Db := { applied := app, schema := sch }

def appendSchema (n : String) (d : Db) : Db := { d with schema := d.schema ++ [n] }

def appendApplied (n : String) (d : Db) : Db := { d with applied := d.applied ++ [n] }

/-- The single `pg` client's session: the committed database state, and the
pending state of the open transaction when one is active.  Statements run
while a transaction is open act on the pending state; with no open
transaction they autocommit directly. -/
structure Session where
  committed : Db
  txn : Option Db
  deriving DecidableEq, Repr

/-- `BEGIN`: opens a transaction; issued inside an open transaction,
PostgreSQL emits only a warning and changes nothing. -/
def sBegin (s : Session) : Session :=
  match s.txn with
  | some _ => s
  | none => { s with txn := some s.committed }

/-- `COMMIT`: makes the pending state committed; with no open transaction it
is a warning no-op. -/
def sCommit (s : Session) : Session :=
  match s.txn with
  | some p => { committed := p, txn := none }
  | none => s

/-- `ROLLBACK`: discards the pending state; with no open transaction it is a
warning no-op. -/
def sRollback (s : Session) : Session :=
  match s.txn with
  | some _ => { s with txn := none }
  | none => s

/-- Executing the schema-changing payload of migration file `n`. -/
def sApplySchema (n : String) (s : Session) : Session :=
  match s.txn with
  | some p => { s with txn := some (appendSchema n p) }
  | none => { s with committed := appendSchema n s.committed }

/-- `INSERT INTO migrations (name) VALUES (n)`. -/
def sRecord (n : String) (s : Session) : Session :=
  match s.txn with
  | some p => { s with txn := some (appendApplied n p) }
  | none => { s with committed := appendApplied n s.committed }

/-- `await client.query(sql)` for one non-failing migration file: a
self-wrapped file runs `BEGIN`, its payload and `COMMIT`; a plain file runs
just its payload. -/
def execFileOk (f : MigrationFile) (s : Session) : Session :=
  if f.wrapsInTxn then sCommit (sApplySchema f.name (sBegin s))
  else sApplySchema f.name s

/-- The runner's loop over the not-yet-applied files: each file's SQL, then
the bookkeeping INSERT; a failing file's exception aborts the loop with the
session as it then stands. -/
def execFiles : Session → List MigrationFile → Session × Bool
  | s, [] => (s, true)
  | s, f :: rest =>
      if f.failsToApply then (s, false)
      else execFiles (sRecord f.name (execFileOk f s)) rest

/-- The runner's filter
`fs.readdirSync('migrations').filter(f => !appliedMigrations.has(f))`:
the listing is taken as input, in the order the filesystem returns it; the
applied names are read just after the runner's `BEGIN`, when the pending
state still equals the committed one. -/
def pendingFiles (db : Db) (listing : List MigrationFile) : List MigrationFile :=
  listing.filter (fun f => !(db.applied.contains f.name))

/-- The whole of `runMigrations`: `BEGIN`, read the applied names, filter
the directory listing, run each remaining file's SQL and record its name,
then `COMMIT`; on an error, `ROLLBACK` — a warning no-op if some migration
file's own embedded `COMMIT` already closed the transaction — and rethrow
(the Boolean result is `false`). -/
def runMigrations (db : Db) (listing : List MigrationFile) : Db × Bool :=
  match execFiles (sBegin { committed := db, txn := none }) (pendingFiles db listing) with
  | (s1, true) => ((sCommit s1).committed, true)
  | (s1, false) => ((sRollback s1).committed, false)

/-- The database state queries of this session observe. -/
def effective (s : Session) : Db :=
  match s.txn with
  | some p => p
  | none => s.committed

/-- The repository's `001_initial.sql`, wrapped in its own BEGIN/COMMIT. -/
def mig001 : MigrationFile :=
  { name := "001_initial.sql", wrapsInTxn := true, failsToApply := false }

/-- A later migration file whose SQL fails to apply. -/
def mig002bad : MigrationFile :=
  { name := "002_bad.sql", wrapsInTxn := false, failsToApply := true }

theorem effective_sBegin (s : Session) : effective (sBegin s) = effective s := by
  cases s with
  | mk c t => cases t <;> rfl

theorem effective_sCommit (s : Session) : effective (sCommit s) = effective s := by
  cases s with
  | mk c t => cases t <;> rfl

theorem sCommit_committed (s : Session) : (sCommit s).committed = effective s := by
  cases s with
  | mk c t => cases t <;> rfl

theorem sRollback_committed (s : Session) : (sRollback s).committed = s.committed := by
  cases s with
  | mk c t => cases t <;> rfl

theorem effective_sApplySchema (n : String) (s : Session) :
    effective (sApplySchema n s) = appendSchema n (effective s) := by
  cases s with
  | mk c t => cases t <;> rfl

theorem effective_sRecord (n : String) (s : Session) :
    effective (sRecord n s) = appendApplied n (effective s) := by
  cases s with
  | mk c t => cases t <;> rfl

theorem effective_execFileOk (f : MigrationFile) (s : Session) :
    effective (execFileOk f s) = appendSchema f.name (effective s) := by
  unfold execFileOk
  split
  · rw [effective_sCommit, effective_sApplySchema, effective_sBegin]
  · rw [effective_sApplySchema]

theorem execFiles_snd_true (s : Session) (files : List MigrationFile) (s1 : Session)
    (h : execFiles s files = (s1, true)) :
    ∀ f ∈ files, f.failsToApply = false := by
  induction files generalizing s with
  | nil =>
      intro g hg
      exact absurd hg (List.not_mem_nil g)
  | cons f rest ih =>
      intro g hg
      by_cases hf : f.failsToApply = true
      · rw [show execFiles s (f :: rest) = (s, false) by simp [execFiles, hf]] at h
        exact absurd (congrArg Prod.snd h) (by simp)
      · rw [Bool.not_eq_true] at hf
        rcases List.mem_cons.mp hg with rfl | hgt
        · exact hf
        · rw [show execFiles s (f :: rest)
              = execFiles (sRecord f.name (execFileOk f s)) rest by
                simp [execFiles, hf]] at h
          exact ih _ h g hgt

theorem execFiles_true_of_all (s : Session) (files : List MigrationFile)
    (hok : ∀ f ∈ files, f.failsToApply = false) :
    (execFiles s files).2 = true := by
  induction files generalizing s with
  | nil => rfl
  | cons f rest ih =>
      have hf : f.failsToApply = false := hok f (List.mem_cons_self _ _)
      rw [show execFiles s (f :: rest)
          = execFiles (sRecord f.name (execFileOk f s)) rest by simp [execFiles, hf]]
      exact ih _ (fun g hg => hok g (List.mem_cons_of_mem _ hg))

theorem effective_execFiles (s : Session) (files : List MigrationFile)
    (hok : ∀ f ∈ files, f.failsToApply = false) :
    effective (execFiles s files).1
      = mkDb ((effective s).applied ++ files.map MigrationFile.name)
          ((effective s).schema ++ files.map MigrationFile.name) := by
  induction files generalizing s with
  | nil =>
      show effective s
          = mkDb ((effective s).applied ++ []) ((effective s).schema ++ [])
      simp [mkDb]
  | cons f rest ih =>
      have hf : f.failsToApply = false := hok f (List.mem_cons_self _ _)
      rw [show execFiles s (f :: rest)
          = execFiles (sRecord f.name (execFileOk f s)) rest by simp [execFiles, hf]]
      rw [ih _ (fun g hg => hok g (List.mem_cons_of_mem _ hg))]
      rw [effective_sRecord, effective_execFileOk]
      simp [appendApplied, appendSchema, mkDb]

theorem execFiles_neutral_fail (s : Session) (files : List MigrationFile)
    (hneutral : ∀ f ∈ files, f.wrapsInTxn = false)
    (htxn : s.txn.isSome = true)
    (hfail : ∃ f ∈ files, f.failsToApply = true) :
    (execFiles s files).1.committed = s.committed ∧
    (execFiles s files).2 = false := by
  induction files generalizing s with
  | nil =>
      obtain ⟨f, hf, -⟩ := hfail
      exact absurd hf (List.not_mem_nil f)
  | cons f rest ih =>
      by_cases hf : f.failsToApply = true
      · rw [show execFiles s (f :: rest) = (s, false) by simp [execFiles, hf]]
        exact ⟨rfl, rfl⟩
      · rw [Bool.not_eq_true] at hf
        rw [show execFiles s (f :: rest)
            = execFiles (sRecord f.name (execFileOk f s)) rest by simp [execFiles, hf]]
        have hw : f.wrapsInTxn = false := hneutral f (List.mem_cons_self _ _)
        have hstep : (sRecord f.name (execFileOk f s)).committed = s.committed ∧
            (sRecord f.name (execFileOk f s)).txn.isSome = true := by
          rw [show execFileOk f s = sApplySchema f.name s by simp [execFileOk, hw]]
          cases s with
          | mk c t =>
              cases t with
              | none => simp at htxn
              | some p => exact ⟨rfl, rfl⟩
        obtain ⟨g, hg, hgf⟩ := hfail
        rcases List.mem_cons.mp hg with rfl | hgt
        · rw [hf] at hgf
          exact absurd hgf (by decide)
        · have hrec := ih (sRecord f.name (execFileOk f s))
            (fun g2 hg2 => hneutral g2 (List.mem_cons_of_mem _ hg2))
            hstep.2 ⟨g, hgt, hgf⟩
          exact ⟨hrec.1.trans hstep.1, hrec.2⟩

/-- C4 (amended): when none of the not-yet-applied migration files issues
its own transaction control, the failure of any single one aborts the whole
batch: the database — both the executed-SQL state and the `migrations`
table — is exactly as before the run, and the error is propagated to the
caller.  The repository's `001_initial.sql` wraps itself in
`BEGIN`/`COMMIT`, which escapes this guarantee: its embedded `COMMIT`
commits the runner's transaction mid-batch, so a later failure's `ROLLBACK`
is a no-op and the file stays applied and recorded. -/
theorem runMigrations_atomic (db : Db) (listing : List MigrationFile)
    (hneutral : ∀ f ∈ pendingFiles db listing, f.wrapsInTxn = false)
    (hfail : ∃ f ∈ pendingFiles db listing, f.failsToApply = true) :
    runMigrations db listing = (db, false) := by
  unfold runMigrations
  cases hexec : execFiles (sBegin { committed := db, txn := none })
      (pendingFiles db listing) with
  | mk s1 b =>
      have h := execFiles_neutral_fail (sBegin { committed := db, txn := none })
        (pendingFiles db listing) hneutral rfl hfail
      rw [hexec] at h
      have hb : b = false := h.2
      subst hb
      simp only [hexec]
      have hc : (sRollback s1).committed = db := by
        rw [sRollback_committed]
        exact h.1
      rw [hc]

theorem runMigrations_atomic_witness :
    runMigrations (mkDb ["001_initial.sql"] ["001_initial.sql"]) [mig001, mig002bad]
      = (mkDb ["001_initial.sql"] ["001_initial.sql"], false) :=
  runMigrations_atomic (mkDb ["001_initial.sql"] ["001_initial.sql"]) [mig001, mig002bad]
    (by decide) ⟨mig002bad, by decide, rfl⟩

/-- C4 counterexample: on a fresh database, the repository's self-committing
`001_initial.sql` followed by a failing migration refutes batch atomicity —
the embedded `COMMIT` commits the runner's transaction, the subsequent
bookkeeping INSERT autocommits, the `ROLLBACK` in the catch block is a
warning no-op, and the failed batch leaves `001_initial.sql` both applied
and recorded in the `migrations` table, not the pre-run state. -/
theorem runMigrations_commit_escape_counterexample :
    mig002bad ∈ pendingFiles (mkDb [] []) [mig001, mig002bad] ∧
    mig002bad.failsToApply = true ∧
    runMigrations (mkDb [] []) [mig001, mig002bad]
      = (mkDb ["001_initial.sql"] ["001_initial.sql"], false) ∧
    mkDb ["001_initial.sql"] ["001_initial.sql"] ≠ mkDb [] [] := by
  refine ⟨by decide, rfl, by decide, by decide⟩

/-- C5: a successful run applies exactly the not-yet-applied migration files,
in listing order, records each applied name exactly once (given distinct file
names in the directory), and a second run over the same listing applies
nothing and records nothing new. -/
theorem runMigrations_exact_and_idempotent (db db1 : Db) (listing : List MigrationFile)
    (hnodup : (listing.map MigrationFile.name).Nodup)
    (hrun : runMigrations db listing = (db1, true)) :
    db1.applied = db.applied ++ (pendingFiles db listing).map MigrationFile.name ∧
    db1.schema = db.schema ++ (pendingFiles db listing).map MigrationFile.name ∧
    (∀ f ∈ pendingFiles db listing, db1.applied.count f.name = 1) ∧
    runMigrations db1 listing = (db1, true) := by
  unfold runMigrations at hrun
  cases hexec : execFiles (sBegin { committed := db, txn := none })
      (pendingFiles db listing) with
  | mk s1 b =>
      cases b with
      | false =>
          simp only [hexec] at hrun
          exact absurd (congrArg Prod.snd hrun) (by simp)
      | true =>
          simp only [hexec] at hrun
          have hdb1 : (sCommit s1).committed = db1 := congrArg Prod.fst hrun
          have hok : ∀ f ∈ pendingFiles db listing, f.failsToApply = false :=
            execFiles_snd_true _ _ _ hexec
          have heff := effective_execFiles (sBegin { committed := db, txn := none })
            (pendingFiles db listing) hok
          rw [hexec] at heff
          have hdb1e : db1
              = mkDb (db.applied ++ (pendingFiles db listing).map MigrationFile.name)
                  (db.schema ++ (pendingFiles db listing).map MigrationFile.name) := by
            rw [← hdb1, sCommit_committed]
            exact heff
          subst hdb1e
          have hpnodup : ((pendingFiles db listing).map MigrationFile.name).Nodup :=
            List.Sublist.nodup
              (List.Sublist.map MigrationFile.name (List.filter_sublist listing)) hnodup
          have happlied : ∀ f ∈ pendingFiles db listing, f.name ∉ db.applied := by
            intro f hf
            have hfm := List.mem_filter.mp hf
            intro hmem
            have hc : db.applied.contains f.name = true := List.elem_iff.mpr hmem
            rw [hc] at hfm
            exact absurd hfm.2 (by decide)
          refine ⟨rfl, rfl, ?_, ?_⟩
          · intro f hf
            show (db.applied
                ++ (pendingFiles db listing).map MigrationFile.name).count f.name = 1
            rw [List.count_append, List.count_eq_zero.mpr (happlied f hf),
              List.count_eq_one_of_mem hpnodup (List.mem_map_of_mem _ hf)]
          · have hpend2 : pendingFiles
                (mkDb (db.applied ++ (pendingFiles db listing).map MigrationFile.name)
                  (db.schema ++ (pendingFiles db listing).map MigrationFile.name))
                listing = [] := by
              unfold pendingFiles
              rw [List.filter_eq_nil_iff]
              intro f hf
              simp only [mkDb]
              have hmem : f.name ∈ db.applied
                  ++ (listing.filter (fun g => !(db.applied.contains g.name))).map
                    MigrationFile.name := by
                by_cases hin : f.name ∈ db.applied
                · exact List.mem_append_left _ hin
                · refine List.mem_append_right _ (List.mem_map_of_mem _ ?_)
                  refine List.mem_filter.mpr ⟨hf, ?_⟩
                  simp only [Bool.not_eq_true']
                  rw [← Bool.not_eq_true]
                  intro hc
                  exact hin (List.elem_iff.mp hc)
              intro hcontra
              rw [Bool.not_eq_true'] at hcontra
              have hcontra2 : List.elem f.name (db.applied
                  ++ (listing.filter (fun g => !(db.applied.contains g.name))).map
                    MigrationFile.name) = false := hcontra
              rw [List.elem_iff.mpr hmem] at hcontra2
              exact absurd hcontra2 (by simp)
            unfold runMigrations
            rw [hpend2]
            rfl

theorem runMigrations_exact_and_idempotent_witness :
    (mkDb ["001_initial.sql"] ["001_initial.sql"]).applied
        = (mkDb [] []).applied ++ (pendingFiles (mkDb [] []) [mig001]).map MigrationFile.name ∧
    (mkDb ["001_initial.sql"] ["001_initial.sql"]).schema
        = (mkDb [] []).schema ++ (pendingFiles (mkDb [] []) [mig001]).map MigrationFile.name ∧
    (∀ f ∈ pendingFiles (mkDb [] []) [mig001],
        (mkDb ["001_initial.sql"] ["001_initial.sql"]).applied.count f.name = 1) ∧
    runMigrations (mkDb ["001_initial.sql"] ["001_initial.sql"]) [mig001]
      = (mkDb ["001_initial.sql"] ["001_initial.sql"], true) :=
  runMigrations_exact_and_idempotent (mkDb [] [])
    (mkDb ["001_initial.sql"] ["001_initial.sql"]) [mig001] (by decide) (by decide)

/-- An externally visible event against the `JobCoordinator`: a call to
`runJob` by a given caller, or the settlement (successful completion or
failure) of one in-flight worker. -/
inductive CoordEvent
  | submit (caller : Nat)
  | complete (w : Nat)
  | fail (w : Nat)
  deriving DecidableEq, Repr

/-- State of the `JobCoordinator`: `nextId` generates fresh worker
identities (the JS `Worker` objects keying `this.running`); `inflight` is
`this.running`'s key set in insertion order; `waiting` holds the callers
blocked in `await Promise.race(this.running.values())` together with the
snapshot of in-flight workers their race iterates over; `admitted` logs, in
order, the callers whose `new Worker(...)` line has run; `rejected` logs the
blocked callers whose `runJob` call threw, with the failed worker. -/
structure CoordState where
  nextId : Nat
  inflight : List Nat
  waiting : List (Nat × List Nat)
  admitted : List Nat
  rejected : List (Nat × Nat)
  deriving DecidableEq, Repr

/-- Resume the woken blocked callers in order: each one proceeds past its
`await` straight to `new Worker(...)` — without re-checking the ceiling —
registers the worker in `running` and is admitted. -/
def spawnAll : CoordState → List Nat → CoordState
  | s, [] => s
  | s, c :: cs =>
      spawnAll
        { s with nextId := s.nextId + 1,
                 inflight := s.inflight ++ [s.nextId],
                 admitted := s.admitted ++ [c] } cs

/-- One step of `JobCoordinator.runJob` and of worker settlement.
`submit c`: if `this.running.size >= this.maxParallel` fails, spawn at once;
otherwise the caller blocks on `Promise.race` over the current in-flight
snapshot.  `complete w`: the `finally` handler registered at spawn time
deletes `w` from `running` first; then every blocked caller whose race
snapshot contains `w` resumes and spawns (all of them — `Promise.race`
settles for each).  `fail w`: `w` is deleted, and every blocked caller whose
snapshot contains `w` has its `await` throw, so its `runJob` promise rejects
with that worker's error and it never spawns. -/
def step (maxParallel : Nat) (s : CoordState) : CoordEvent → CoordState
  | .submit c =>
      if s.inflight.length < maxParallel then
        { s with nextId := s.nextId + 1,
                 inflight := s.inflight ++ [s.nextId],
                 admitted := s.admitted ++ [c] }
      else
        { s with waiting := s.waiting ++ [(c, s.inflight)] }
  | .complete w =>
      spawnAll
        { s with inflight := s.inflight.erase w,
                 waiting := s.waiting.filter (fun p => !(p.2.contains w)) }
        ((s.waiting.filter (fun p => p.2.contains w)).map Prod.fst)
  | .fail w =>
      { s with inflight := s.inflight.erase w,
               waiting := s.waiting.filter (fun p => !(p.2.contains w)),
               rejected := s.rejected ++
                 ((s.waiting.filter (fun p => p.2.contains w)).map (fun p => (p.1, w))) }

/-- Run a sequence of coordinator events. -/
def runCoord (maxParallel : Nat) : CoordState → List CoordEvent → CoordState
  | s, [] => s
  | s, e :: es => runCoord maxParallel (step maxParallel s e) es

/-- A settlement event concerns an actually in-flight worker (a worker
settles at most once, while it is registered in `running`). -/
def validEventB (s : CoordState) : CoordEvent → Bool
  | .submit _ => true
  | .complete w => s.inflight.contains w
  | .fail w => s.inflight.contains w

def validEventsB (maxParallel : Nat) : CoordState → List CoordEvent → Bool
  | _, [] => true
  | s, e :: es => validEventB s e && validEventsB maxParallel (step maxParallel s e) es

/-- At most one caller is blocked in `runJob` at every point of the run. -/
def boundedWaitersB (maxParallel : Nat) : CoordState → List CoordEvent → Bool
  | s, [] => decide (s.waiting.length ≤ 1)
  | s, e :: es =>
      decide (s.waiting.length ≤ 1) && boundedWaitersB maxParallel (step maxParallel s e) es

/-- Number of `submit` events by caller `c`. -/
def submitCount (c : Nat) : List CoordEvent → Nat
  | [] => 0
  | .submit k :: es => (if k = c then 1 else 0) + submitCount c es
  | .complete _ :: es => submitCount c es
  | .fail _ :: es => submitCount c es

/-- The empty coordinator, `new JobCoordinator(...)`. -/
def coordInit : CoordState :=
  { nextId := 0, inflight := [], waiting := [], admitted := [], rejected := [] }

/-- Per-worker settlement event, as delivered to the handlers `runJob`
installs on the worker: a `message`, an `error` event, or process exit with
a code. -/
inductive WEvent
  | message (v : Nat)
  | errored (e : Nat)
  | exited (code : Nat)
  deriving DecidableEq, Repr

/-- Settlement state of the promise `runJob` returns. -/
inductive Outcome
  | resolved (v : Nat)
  | rejectedWorkerErr (e : Nat)
  | rejectedExit (code : Nat)
  | pendingOutcome
  deriving DecidableEq, Repr

/-- A promise settles once: the first settling event wins.  `message`
resolves, `error` rejects, and `exit` rejects with an error naming the exit
code when the code is non-zero (`if (code !== 0) reject(new Error(...))`);
an exit with code 0 settles nothing. -/
def settleStep (o : Outcome) (e : WEvent) : Outcome :=
  match o with
  | .pendingOutcome =>
      match e with
      | .message v => .resolved v
      | .errored err => .rejectedWorkerErr err
      | .exited code => if code = 0 then .pendingOutcome else .rejectedExit code
  | settled => settled

/-- Outcome of the `runJob` promise after a sequence of worker events. -/
def settle (evs : List WEvent) : Outcome :=
  evs.foldl settleStep .pendingOutcome

theorem spawnAll_waiting (s : CoordState) (cs : List Nat) :
    (spawnAll s cs).waiting = s.waiting := by
  induction cs generalizing s with
  | nil => rfl
  | cons c t ih => rw [spawnAll, ih]

theorem spawnAll_inflight_length (s : CoordState) (cs : List Nat) :
    (spawnAll s cs).inflight.length = s.inflight.length + cs.length := by
  induction cs generalizing s with
  | nil => simp [spawnAll]
  | cons c t ih =>
      rw [spawnAll, ih]
      simp only [List.length_append, List.length_cons, List.length_nil]
      omega

theorem spawnAll_admitted_mono (s : CoordState) (cs : List Nat) (c : Nat)
    (h : c ∈ s.admitted) : c ∈ (spawnAll s cs).admitted := by
  induction cs generalizing s with
  | nil => exact h
  | cons k t ih =>
      rw [spawnAll]
      exact ih _ (List.mem_append_left _ h)

theorem spawnAll_admitted_of_mem (s : CoordState) (cs : List Nat) (c : Nat)
    (h : c ∈ cs) : c ∈ (spawnAll s cs).admitted := by
  induction cs generalizing s with
  | nil => exact absurd h (List.not_mem_nil c)
  | cons k t ih =>
      rcases List.mem_cons.mp h with rfl | ht
      · rw [spawnAll]
        exact spawnAll_admitted_mono _ _ _
          (List.mem_append_right _ (List.mem_singleton.mpr rfl))
      · rw [spawnAll]
        exact ih _ ht

theorem spawnAll_admitted_count (s : CoordState) (cs : List Nat) (c : Nat) :
    (spawnAll s cs).admitted.count c = s.admitted.count c + cs.count c := by
  induction cs generalizing s with
  | nil => simp [spawnAll]
  | cons k t ih =>
      rw [spawnAll, ih]
      simp only [List.count_append, List.count_cons, List.count_nil]
      omega

theorem step_inflight_le (maxParallel : Nat) (s : CoordState) (e : CoordEvent)
    (hlen : s.inflight.length ≤ maxParallel)
    (hwait : s.waiting.length ≤ 1)
    (hvalid : validEventB s e = true) :
    (step maxParallel s e).inflight.length ≤ maxParallel := by
  cases e with
  | submit c =>
      simp only [step]
      split
      · rename_i hlt
        show (s.inflight ++ [s.nextId]).length ≤ maxParallel
        simp only [List.length_append, List.length_singleton]
        omega
      · exact hlen
  | complete w =>
      have hw : w ∈ s.inflight := List.elem_iff.mp hvalid
      have he : (s.inflight.erase w).length = s.inflight.length - 1 :=
        List.length_erase_of_mem hw
      have hf : ((s.waiting.filter (fun p => p.2.contains w)).map Prod.fst).length
          ≤ s.waiting.length := by
        rw [List.length_map]
        exact List.length_filter_le _ _
      have hpos : 1 ≤ s.inflight.length := List.length_pos.mpr (List.ne_nil_of_mem hw)
      simp only [step, spawnAll_inflight_length]
      omega
  | fail w =>
      have hw : w ∈ s.inflight := List.elem_iff.mp hvalid
      have he : (s.inflight.erase w).length = s.inflight.length - 1 :=
        List.length_erase_of_mem hw
      simp only [step]
      show (s.inflight.erase w).length ≤ maxParallel
      omega

theorem runCoord_inflight_le (maxParallel : Nat) (s : CoordState) (evs : List CoordEvent)
    (hlen : s.inflight.length ≤ maxParallel)
    (hv : validEventsB maxParallel s evs = true)
    (hb : boundedWaitersB maxParallel s evs = true) :
    (runCoord maxParallel s evs).inflight.length ≤ maxParallel := by
  induction evs generalizing s with
  | nil => exact hlen
  | cons e es ih =>
      rw [validEventsB, Bool.and_eq_true] at hv
      rw [boundedWaitersB, Bool.and_eq_true] at hb
      rw [runCoord]
      exact ih _ (step_inflight_le maxParallel s e hlen (of_decide_eq_true hb.1) hv.1)
        hv.2 hb.2

/-- C3 (amended): `runJob` blocks a submission at the concurrency ceiling on
`Promise.race` over the then-current in-flight workers and admits it as soon
as one of them completes, without re-checking the ceiling.  When at most one
submission is ever blocked at a time, the number of in-flight workers never
exceeds `maxParallel`; with two or more concurrently blocked submissions a
single completion wakes them all, so the ceiling can be exceeded. -/
theorem runJob_bound_single_waiter :
    (∀ (maxParallel : Nat) (s : CoordState) (evs : List CoordEvent),
        s.inflight.length ≤ maxParallel →
        validEventsB maxParallel s evs = true →
        boundedWaitersB maxParallel s evs = true →
        (runCoord maxParallel s evs).inflight.length ≤ maxParallel) ∧
    (∀ (maxParallel : Nat) (s : CoordState) (c : Nat) (snap : List Nat) (w : Nat),
        (c, snap) ∈ s.waiting → snap.contains w = true →
        c ∈ (step maxParallel s (.complete w)).admitted) := by
  constructor
  · exact runCoord_inflight_le
  · intro maxParallel s c snap w hw hmem
    simp only [step]
    refine spawnAll_admitted_of_mem _ _ _ ?_
    exact List.mem_map.mpr ⟨(c, snap), List.mem_filter.mpr ⟨hw, hmem⟩, rfl⟩

theorem runJob_bound_single_waiter_witness :
    (runCoord 2 coordInit [.submit 5, .submit 6, .submit 7, .complete 0]).inflight.length ≤ 2 ∧
    8 ∈ (step 1 { nextId := 3, inflight := [0], waiting := [(8, [0])],
                  admitted := [], rejected := [] } (.complete 0)).admitted :=
  ⟨runJob_bound_single_waiter.1 2 coordInit [.submit 5, .submit 6, .submit 7, .complete 0]
      (by decide) (by decide) (by decide),
   runJob_bound_single_waiter.2 1 _ 8 [0] 0 (by decide) (by decide)⟩

/-- C3 counterexample: with `maxParallel = 1`, one worker running and two
callers blocked on the same race, the single completion wakes both and each
spawns, leaving two in-flight workers — the ceiling is exceeded under
concurrent submissions. -/
theorem runJob_ceiling_counterexample :
    validEventsB 1 coordInit [.submit 10, .submit 11, .submit 12, .complete 0] = true ∧
    (runCoord 1 coordInit [.submit 10, .submit 11, .submit 12, .complete 0]).inflight.length
      = 2 ∧
    ¬ ((runCoord 1 coordInit
          [.submit 10, .submit 11, .submit 12, .complete 0]).inflight.length ≤ 1) := by
  refine ⟨by decide, by decide, by decide⟩

/-- C9: a caller blocked at the ceiling whose race snapshot contains a worker
that fails has its own `runJob` promise reject with that unrelated worker's
error, and the submitted job's worker is never spawned (`admitted` and the
worker-id counter are untouched). -/
theorem blocked_submit_rejected_on_failure (maxParallel : Nat) (s : CoordState)
    (c : Nat) (snap : List Nat) (w : Nat)
    (hw : (c, snap) ∈ s.waiting) (hmem : snap.contains w = true) :
    (c, w) ∈ (step maxParallel s (.fail w)).rejected ∧
    (step maxParallel s (.fail w)).admitted = s.admitted ∧
    (step maxParallel s (.fail w)).nextId = s.nextId := by
  refine ⟨?_, rfl, rfl⟩
  show (c, w) ∈ s.rejected ++
      ((s.waiting.filter (fun p => p.2.contains w)).map (fun p => (p.1, w)))
  refine List.mem_append_right _ ?_
  exact List.mem_map.mpr ⟨(c, snap), List.mem_filter.mpr ⟨hw, hmem⟩, rfl⟩

theorem blocked_submit_rejected_on_failure_witness :
    (9, 4) ∈ (step 2 { nextId := 5, inflight := [4, 3], waiting := [(9, [4, 3])],
                       admitted := [], rejected := [] } (.fail 4)).rejected ∧
    (step 2 { nextId := 5, inflight := [4, 3], waiting := [(9, [4, 3])],
              admitted := [], rejected := [] } (.fail 4)).admitted = [] ∧
    (step 2 { nextId := 5, inflight := [4, 3], waiting := [(9, [4, 3])],
              admitted := [], rejected := [] } (.fail 4)).nextId = 5 :=
  blocked_submit_rejected_on_failure 2 _ 9 [4, 3] 4 (by decide) (by decide)

theorem count_map_fst_filter (p : (Nat × List Nat) → Bool)
    (l : List (Nat × List Nat)) (c : Nat) :
    ((l.filter p).map Prod.fst).count c
        + ((l.filter (fun x => !(p x))).map Prod.fst).count c
      = (l.map Prod.fst).count c := by
  induction l with
  | nil => rfl
  | cons a t ih =>
      by_cases hp : p a = true
      · simp [List.filter_cons, hp, List.count_cons]
        omega
      · rw [Bool.not_eq_true] at hp
        simp [List.filter_cons, hp, List.count_cons]
        omega

/-- Contribution of one event to the number of admissions caller `c` can
ever receive: only a `submit` by `c` itself. -/
def submitDelta (c : Nat) : CoordEvent → Nat
  | .submit k => if k = c then 1 else 0
  | .complete _ => 0
  | .fail _ => 0

theorem submitCount_cons (c : Nat) (e : CoordEvent) (es : List CoordEvent) :
    submitCount c (e :: es) = submitDelta c e + submitCount c es := by
  cases e <;> simp [submitCount, submitDelta]

theorem step_count_le (maxParallel : Nat) (s : CoordState) (e : CoordEvent) (c : Nat) :
    (step maxParallel s e).admitted.count c
        + ((step maxParallel s e).waiting.map Prod.fst).count c
      ≤ s.admitted.count c + ((s.waiting.map Prod.fst).count c) + submitDelta c e := by
  cases e with
  | submit k =>
      simp only [step, submitDelta]
      split
      · show (s.admitted ++ [k]).count c + ((s.waiting.map Prod.fst).count c) ≤ _
        rw [List.count_append]
        have hk : List.count c [k] = if k = c then 1 else 0 := by
          by_cases h : k = c <;> simp [h, List.count_cons, List.count_nil]
        rw [hk]
        omega
      · show s.admitted.count c + (((s.waiting ++ [(k, s.inflight)]).map Prod.fst).count c) ≤ _
        rw [List.map_append, List.count_append]
        have hk : List.count c ([(k, s.inflight)].map Prod.fst) = if k = c then 1 else 0 := by
          by_cases h : k = c <;> simp [h, List.count_cons, List.count_nil]
        rw [hk]
        omega
  | complete w =>
      simp only [step, submitDelta]
      rw [spawnAll_admitted_count, spawnAll_waiting]
      show s.admitted.count c + ((s.waiting.filter (fun p => p.2.contains w)).map Prod.fst).count c
            + ((s.waiting.filter (fun p => !(p.2.contains w))).map Prod.fst).count c
          ≤ _
      rw [Nat.add_assoc, count_map_fst_filter]
      omega
  | fail w =>
      simp only [step, submitDelta]
      show s.admitted.count c
            + ((s.waiting.filter (fun p => !(p.2.contains w))).map Prod.fst).count c
          ≤ _
      have h := count_map_fst_filter (fun p => p.2.contains w) s.waiting c
      omega

theorem runCoord_count_le (maxParallel : Nat) (s : CoordState) (evs : List CoordEvent)
    (c : Nat) :
    (runCoord maxParallel s evs).admitted.count c
        + ((runCoord maxParallel s evs).waiting.map Prod.fst).count c
      ≤ s.admitted.count c + ((s.waiting.map Prod.fst).count c) + submitCount c evs := by
  induction evs generalizing s with
  | nil => simp [runCoord, submitCount]
  | cons e es ih =>
      rw [runCoord, submitCount_cons]
      have h1 := ih (step maxParallel s e)
      have h2 := step_count_le maxParallel s e c
      omega

/-- C8: a worker's non-zero exit, when no earlier event has settled its
promise, is surfaced to the submitter as a rejection carrying the exit code;
and the coordinator never retries a worker — the number of admissions a
caller receives never exceeds the number of its own `runJob` calls
(each settlement spawns workers only for other blocked callers, never re-runs
a finished one). -/
theorem worker_failure_surfaced_not_retried :
    (∀ (evs : List WEvent) (code : Nat), code ≠ 0 → settle evs = .pendingOutcome →
        settle (evs ++ [.exited code]) = .rejectedExit code) ∧
    (∀ (maxParallel : Nat) (s : CoordState) (evs : List CoordEvent) (c : Nat),
        (runCoord maxParallel s evs).admitted.count c
          ≤ s.admitted.count c + ((s.waiting.map Prod.fst).count c) + submitCount c evs) := by
  constructor
  · intro evs code hcode hpend
    unfold settle at hpend ⊢
    rw [List.foldl_append, hpend]
    simp [settleStep, hcode]
  · intro maxParallel s evs c
    have h := runCoord_count_le maxParallel s evs c
    omega

theorem worker_failure_surfaced_not_retried_witness :
    settle ([] ++ [.exited 1]) = .rejectedExit 1 ∧
    (runCoord 2 coordInit [.submit 5, .submit 5, .submit 5]).admitted.count 5
      ≤ coordInit.admitted.count 5 + ((coordInit.waiting.map Prod.fst).count 5)
        + submitCount 5 [.submit 5, .submit 5, .submit 5] :=
  ⟨worker_failure_surfaced_not_retried.1 [] 1 (by decide) rfl,
   worker_failure_surfaced_not_retried.2 2 coordInit [.submit 5, .submit 5, .submit 5] 5⟩

/-- Job status, the `job_status` enum of `database-schema.sql`. -/
inductive JobStatus
  | pending
  | running
  | completed
  | failed
  | cancelled
  deriving DecidableEq, Repr, Fintype

/-- Terminal job statuses: `completed`, `failed`, `cancelled`. -/
def isTerminalJob : JobStatus → Bool
  | .completed => true
  | .failed => true
  | .cancelled => true
  | .pending => false
  | .running => false

/-- One `sync_jobs` row, restricted to the columns the registry operations
read: id, source, status. -/
structure SyncJobRec where
  jobId : Nat
  source : String
  status : JobStatus
  deriving DecidableEq, Repr

/-- The sync-job registry: the `sync_jobs` table plus the UUID generator,
modelled as a counter of fresh ids. -/
structure Registry where
  nextJobId : Nat
  jobs : List SyncJobRec
  deriving DecidableEq, Repr

inductive RegError
  | conflict
  | unknownJob
  | invalidTransition
  deriving DecidableEq, Repr

/-- A freshly inserted `sync_jobs` row: status defaults to `pending`. -/
def newJob (idv : Nat) (src : String) : SyncJobRec :=
  { jobId := idv, source := src, status := .pending }

/-- Modelled from the spec: `createJob(source, freshStart)` (spec section
4.1) — its code is not among the source files, only the `sync_jobs` schema
is.  It fails with `ConflictError` when a non-terminal job already exists
for the source, and otherwise inserts one new `pending` job; the check and
the insert form a single serializable transaction (spec section 5), so an
interleaving of concurrent attempts is a sequence of atomic operations. -/
def createJob (r : Registry) (source : String) (_freshStart : Bool) :
    Except RegError Registry :=
  if r.jobs.any (fun j => j.source == source && !(isTerminalJob j.status)) then
    .error .conflict
  else
    .ok { nextJobId := r.nextJobId + 1, jobs := r.jobs ++ [newJob r.nextJobId source] }

/-- Modelled from the spec: the job state machine
`pending → running → (completed | failed | cancelled)` (spec section 4.1). -/
def allowedJobTransition : JobStatus → JobStatus → Bool
  | .pending, .running => true
  | .running, .completed => true
  | .running, .failed => true
  | .running, .cancelled => true
  | _, _ => false

/-- SQL `UPDATE sync_jobs SET status = st WHERE id = id` applied to one row. -/
def setJobStatus (id : Nat) (st : JobStatus) (k : SyncJobRec) : SyncJobRec :=
  if k.jobId == id then { k with status := st } else k

/-- Modelled from the spec: `transition(jobId, newStatus)` (spec section
4.1) — fails with `InvalidTransitionError` on any edge not in the table and
with `UnknownJobError` when no row has the id. -/
def transitionJob (r : Registry) (id : Nat) (st : JobStatus) :
    Except RegError Registry :=
  match r.jobs.find? (fun j => j.jobId == id) with
  | none => .error .unknownJob
  | some j =>
      if allowedJobTransition j.status st then
        .ok { r with jobs := r.jobs.map (setJobStatus id st) }
      else .error .invalidTransition

/-- A registry operation; a failed operation leaves the table unchanged. -/
inductive RegOp
  | create (source : String) (freshStart : Bool)
  | trans (id : Nat) (st : JobStatus)
  deriving DecidableEq, Repr

def applyRegOp (r : Registry) : RegOp → Registry
  | .create src fs =>
      match createJob r src fs with
      | .ok r1 => r1
      | .error _ => r
  | .trans id st =>
      match transitionJob r id st with
      | .ok r1 => r1
      | .error _ => r

def runRegOps (r : Registry) : List RegOp → Registry
  | [] => r
  | op :: ops => runRegOps (applyRegOp r op) ops

/-- The empty registry. -/
def regInit : Registry := { nextJobId := 0, jobs := [] }

/-- No two distinct rows of the table are simultaneously non-terminal for
the same source. -/
def noTwoNonTerminalSameSource (jobs : List SyncJobRec) : Prop :=
  jobs.Pairwise (fun a b =>
    ¬(isTerminalJob a.status = false ∧ isTerminalJob b.status = false ∧
      a.source = b.source))

/-- Internal well-formedness of the registry: distinct ids, ids below the
generator, and per-source uniqueness of non-terminal jobs. -/
def regWF (r : Registry) : Prop :=
  (r.jobs.map SyncJobRec.jobId).Nodup ∧
  (∀ j ∈ r.jobs, j.jobId < r.nextJobId) ∧
  noTwoNonTerminalSameSource r.jobs

theorem allowedJobTransition_nonterminal :
    ∀ a b : JobStatus, allowedJobTransition a b = true → isTerminalJob b = false →
      isTerminalJob a = false := by
  decide

theorem createJob_ok (r : Registry) (src : String) (fs : Bool) (r1 : Registry)
    (h : createJob r src fs = .ok r1) :
    (r.jobs.any (fun j => j.source == src && !(isTerminalJob j.status))) = false ∧
    r1 = { nextJobId := r.nextJobId + 1, jobs := r.jobs ++ [newJob r.nextJobId src] } := by
  unfold createJob at h
  split at h
  · exact absurd h (by simp)
  · rename_i hc
    rw [Bool.not_eq_true] at hc
    exact ⟨hc, (Except.ok.inj h).symm⟩

theorem transitionJob_ok (r : Registry) (id : Nat) (st : JobStatus) (r1 : Registry)
    (h : transitionJob r id st = .ok r1) :
    ∃ j, r.jobs.find? (fun j => j.jobId == id) = some j ∧
      allowedJobTransition j.status st = true ∧
      r1 = { r with jobs := r.jobs.map (setJobStatus id st) } := by
  cases hf : r.jobs.find? (fun j => j.jobId == id) with
  | none =>
      simp only [transitionJob, hf] at h
      exact Except.noConfusion h
  | some j =>
      simp only [transitionJob, hf] at h
      split at h
      · rename_i ha
        exact ⟨j, rfl, ha, (Except.ok.inj h).symm⟩
      · exact absurd h (by simp)

theorem setJobStatus_jobId (id : Nat) (st : JobStatus) (k : SyncJobRec) :
    (setJobStatus id st k).jobId = k.jobId := by
  unfold setJobStatus
  split <;> rfl

theorem setJobStatus_source (id : Nat) (st : JobStatus) (k : SyncJobRec) :
    (setJobStatus id st k).source = k.source := by
  unfold setJobStatus
  split <;> rfl

theorem regWF_applyRegOp (r : Registry) (op : RegOp) (h : regWF r) :
    regWF (applyRegOp r op) := by
  obtain ⟨hnodup, hbound, hpair⟩ := h
  cases op with
  | create src fs =>
      simp only [applyRegOp]
      cases hc : createJob r src fs with
      | error e => exact ⟨hnodup, hbound, hpair⟩
      | ok r1 =>
          obtain ⟨hany, rfl⟩ := createJob_ok r src fs r1 hc
          have hall : ∀ j ∈ r.jobs,
              ¬(j.source == src && !(isTerminalJob j.status)) = true := by
            intro j hj hcontra
            have hcon2 : (r.jobs.any
                (fun j => j.source == src && !(isTerminalJob j.status))) = true :=
              List.any_eq_true.mpr ⟨j, hj, hcontra⟩
            rw [hany] at hcon2
            exact Bool.false_ne_true hcon2
          refine ⟨?_, ?_, ?_⟩
          · show ((r.jobs ++ [newJob r.nextJobId src]).map SyncJobRec.jobId).Nodup
            rw [List.map_append, List.nodup_append]
            refine ⟨hnodup, List.nodup_singleton _, ?_⟩
            intro a ha hb
            obtain ⟨j, hj, rfl⟩ := List.mem_map.mp ha
            have hlt : j.jobId < r.nextJobId := hbound j hj
            have heq : j.jobId = r.nextJobId := by simpa [newJob] using hb
            omega
          · intro j hj
            show j.jobId < r.nextJobId + 1
            rcases List.mem_append.mp hj with hj1 | hj2
            · have := hbound j hj1
              omega
            · have : j = newJob r.nextJobId src := List.mem_singleton.mp hj2
              rw [this]
              show r.nextJobId < r.nextJobId + 1
              omega
          · show noTwoNonTerminalSameSource (r.jobs ++ [newJob r.nextJobId src])
            unfold noTwoNonTerminalSameSource
            rw [List.pairwise_append]
            refine ⟨hpair, List.pairwise_singleton _ _, ?_⟩
            intro a ha b hb
            have hbeq : b = newJob r.nextJobId src := List.mem_singleton.mp hb
            subst hbeq
            rintro ⟨hna, -, hsrc⟩
            apply hall a ha
            have hsrc2 : a.source = src := hsrc
            simp [hsrc2, hna]
  | trans id st =>
      simp only [applyRegOp]
      cases hc : transitionJob r id st with
      | error e => exact ⟨hnodup, hbound, hpair⟩
      | ok r1 =>
          obtain ⟨j, hf, hallow, rfl⟩ := transitionJob_ok r id st r1 hc
          have hjmem : j ∈ r.jobs := List.mem_of_find?_eq_some hf
          have hjid0 := List.find?_some hf
          have hjid : (j.jobId == id) = true := hjid0
          have hnt : ∀ k ∈ r.jobs,
              isTerminalJob (setJobStatus id st k).status = false →
                isTerminalJob k.status = false := by
            intro k hk hterm
            unfold setJobStatus at hterm
            by_cases hkid : (k.jobId == id) = true
            · rw [if_pos hkid] at hterm
              have hkj : k = j := by
                refine List.inj_on_of_nodup_map hnodup hk hjmem ?_
                rw [beq_iff_eq.mp hkid, beq_iff_eq.mp hjid]
              subst hkj
              exact allowedJobTransition_nonterminal k.status st hallow hterm
            · rw [if_neg hkid] at hterm
              exact hterm
          refine ⟨?_, ?_, ?_⟩
          · show ((r.jobs.map (setJobStatus id st)).map SyncJobRec.jobId).Nodup
            rw [List.map_map]
            show (List.map (fun k => (setJobStatus id st k).jobId) r.jobs).Nodup
            rw [List.map_eq_map_iff.mpr (fun k _ => setJobStatus_jobId id st k)]
            exact hnodup
          · intro k hk
            obtain ⟨k0, hk0, rfl⟩ := List.mem_map.mp hk
            show (setJobStatus id st k0).jobId < r.nextJobId
            rw [setJobStatus_jobId]
            exact hbound k0 hk0
          · show noTwoNonTerminalSameSource (r.jobs.map (setJobStatus id st))
            unfold noTwoNonTerminalSameSource
            rw [List.pairwise_map]
            refine List.Pairwise.imp_of_mem ?_ hpair
            intro a b ha hb hr
            rintro ⟨hna, hnb, hsrc⟩
            rw [setJobStatus_source, setJobStatus_source] at hsrc
            exact hr ⟨hnt a ha hna, hnt b hb hnb, hsrc⟩

theorem regWF_runRegOps (r : Registry) (ops : List RegOp) (h : regWF r) :
    regWF (runRegOps r ops) := by
  induction ops generalizing r with
  | nil => exact h
  | cons op ops ih => exact ih _ (regWF_applyRegOp r op h)

/-- C7: `createJob` fails with `ConflictError` whenever a non-terminal job
already exists for the source, and — each operation being a single
serializable transaction, an interleaving of concurrent attempts is a
sequence of atomic operations — every operation sequence from the empty
registry maintains at most one non-terminal SyncJob per source. -/
theorem createJob_conflict_and_unique_nonterminal :
    (∀ (r : Registry) (src : String) (fs : Bool),
        (∃ j ∈ r.jobs, j.source = src ∧ isTerminalJob j.status = false) →
        createJob r src fs = .error .conflict) ∧
    (∀ ops : List RegOp, noTwoNonTerminalSameSource (runRegOps regInit ops).jobs) := by
  constructor
  · intro r src fs hex
    obtain ⟨j, hj, hjsrc, hjnt⟩ := hex
    unfold createJob
    rw [if_pos]
    exact List.any_eq_true.mpr ⟨j, hj, by simp [hjsrc, hjnt]⟩
  · intro ops
    have hbase : regWF regInit :=
      ⟨List.nodup_nil, fun j hj => absurd hj (List.not_mem_nil j), List.Pairwise.nil⟩
    exact (regWF_runRegOps regInit ops hbase).2.2

theorem createJob_conflict_witness :
    createJob { nextJobId := 1, jobs := [newJob 0 "mitre"] } "mitre" false
      = .error .conflict ∧
    noTwoNonTerminalSameSource
      (runRegOps regInit
        [.create "mitre" false, .trans 0 .running, .create "mitre" true]).jobs :=
  ⟨createJob_conflict_and_unique_nonterminal.1
      { nextJobId := 1, jobs := [newJob 0 "mitre"] } "mitre" false
      ⟨newJob 0 "mitre", List.mem_singleton.mpr rfl, rfl, rfl⟩,
   createJob_conflict_and_unique_nonterminal.2
      [.create "mitre" false, .trans 0 .running, .create "mitre" true]⟩

/-- One `opensearch_indices` row, restricted to name and lifecycle status
(the status strings of the schema: created, active, deprecated, deleted). -/
structure OsIndex where
  indexName : String
  status : String
  deriving DecidableEq, Repr

/-- One `alias_actions` row, restricted to the columns the claim concerns:
old and new index names, outcome status and failure reason.  The table is
append-only. -/
structure AliasActionRec where
  oldIndexName : Option String
  newIndexName : String
  actionStatus : String
  reason : Option String
  deriving DecidableEq, Repr

/-- The state the promotion protocol touches: the index rows and the
append-only `alias_actions` audit log. -/
structure PromoState where
  indices : List OsIndex
  actions : List AliasActionRec
  deriving DecidableEq, Repr

/-- Status of the index row with the given name. -/
def statusOf (s : PromoState) (n : String) : Option String :=
  (s.indices.find? (fun i => i.indexName == n)).map OsIndex.status

/-- Modelled from the spec: the alias-promotion protocol (spec section 4.5)
— its code is not among the source files, only the `alias_actions` and
`opensearch_indices` schemas are.  `swapOk` is the outcome of step 3, the
single atomic alias repoint against the search engine.  On success the old
index becomes `deprecated`, the new one `active`, and a `success` action is
appended; on failure no index status changes and exactly one `AliasAction`
with status `failed` and the failure reason is appended — no partial state
is persisted as success. -/
def promoteAlias (s : PromoState) (oldName newName : String) (swapOk : Bool)
    (failReason : String) : PromoState :=
  if swapOk then
    { indices := s.indices.map (fun i =>
        if i.indexName == oldName then { i with status := "deprecated" }
        else if i.indexName == newName then { i with status := "active" }
        else i),
      actions := s.actions ++
        [{ oldIndexName := some oldName, newIndexName := newName,
           actionStatus := "success", reason := none }] }
  else
    { indices := s.indices,
      actions := s.actions ++
        [{ oldIndexName := some oldName, newIndexName := newName,
           actionStatus := "failed", reason := some failReason }] }

/-- C2: when the atomic alias repoint fails, promotion persists nothing of
the swap: the old index is still `active`, the new index still `created`,
the index rows are untouched, and exactly one `AliasAction` with status
`failed` carrying the failure reason is appended. -/
theorem alias_promotion_failure_atomic (s : PromoState) (oldName newName : String)
    (reason : String)
    (hold : statusOf s oldName = some "active")
    (hnew : statusOf s newName = some "created") :
    statusOf (promoteAlias s oldName newName false reason) oldName = some "active" ∧
    statusOf (promoteAlias s oldName newName false reason) newName = some "created" ∧
    (promoteAlias s oldName newName false reason).indices = s.indices ∧
    (promoteAlias s oldName newName false reason).actions
      = s.actions ++
        [{ oldIndexName := some oldName, newIndexName := newName,
           actionStatus := "failed", reason := some reason }] := by
  refine ⟨?_, ?_, rfl, rfl⟩
  · show statusOf { indices := s.indices, actions := _ } oldName = some "active"
    unfold statusOf at hold ⊢
    exact hold
  · show statusOf { indices := s.indices, actions := _ } newName = some "created"
    unfold statusOf at hnew ⊢
    exact hnew

theorem alias_promotion_failure_atomic_witness :
    statusOf (promoteAlias
        { indices := [{ indexName := "idx_v1", status := "active" },
                      { indexName := "idx_v2", status := "created" }], actions := [] }
        "idx_v1" "idx_v2" false "engine timeout") "idx_v1" = some "active" ∧
    statusOf (promoteAlias
        { indices := [{ indexName := "idx_v1", status := "active" },
                      { indexName := "idx_v2", status := "created" }], actions := [] }
        "idx_v1" "idx_v2" false "engine timeout") "idx_v2" = some "created" ∧
    (promoteAlias
        { indices := [{ indexName := "idx_v1", status := "active" },
                      { indexName := "idx_v2", status := "created" }], actions := [] }
        "idx_v1" "idx_v2" false "engine timeout").indices
      = [{ indexName := "idx_v1", status := "active" },
         { indexName := "idx_v2", status := "created" }] ∧
    (promoteAlias
        { indices := [{ indexName := "idx_v1", status := "active" },
                      { indexName := "idx_v2", status := "created" }], actions := [] }
        "idx_v1" "idx_v2" false "engine timeout").actions
      = [] ++ [{ oldIndexName := some "idx_v1", newIndexName := "idx_v2",
                 actionStatus := "failed", reason := some "engine timeout" }] :=
  alias_promotion_failure_atomic
    { indices := [{ indexName := "idx_v1", status := "active" },
                  { indexName := "idx_v2", status := "created" }], actions := [] }
    "idx_v1" "idx_v2" "engine timeout" (by decide) (by decide)

end DocEmbed
